import Mathlib

/-!
Verification of the resource-sharing core of `drinking_philosopher.cpp`
(drinking-philosophers simulation).

Shallow embedding conventions:
* `Bottles::bottles` (a `std::vector<int>` with `-1` meaning free) is a
  `List Int`; bottle indices are `Nat`; philosopher ids are `Int`
  (so the `-1` sentinel can be talked about).
* Vector reads `bottles[i]` are `List.getD i (-1)`; all theorems about
  them carry in-range hypotheses, since out-of-range `operator[]` is
  undefined behaviour in the C++ source.
* `Graph::adjacency_list` (a `std::vector<std::map<int,int>>`) is a
  `List (List (Nat × Int))` where each inner list is a key-sorted
  association list, mirroring `std::map` iteration order, with an
  insert that overwrites an existing key exactly as `map::operator[]`
  assignment does.
-/

namespace DrinkingPhilosopher

/-! ## Generic list-access helper lemmas -/

theorem length_listSet {α : Type} (l : List α) (n : Nat) (v : α) :
    (l.set n v).length = l.length := by
  simp

theorem getD_set_self {α : Type} (l : List α) (n : Nat) (v d : α)
    (h : n < l.length) : (l.set n v).getD n d = v := by
  induction l generalizing n with
  | nil => simp at h
  | cons x xs ih =>
    cases n with
    | zero => simp [List.set, List.getD]
    | succ m =>
      simp only [List.set, List.getD_cons_succ]
      exact ih m (by simpa using h)

theorem getD_set_ne {α : Type} (l : List α) (n m : Nat) (v d : α)
    (h : n ≠ m) : (l.set n v).getD m d = l.getD m d := by
  induction l generalizing n m with
  | nil => simp [List.set]
  | cons x xs ih =>
    cases n with
    | zero =>
      cases m with
      | zero => exact absurd rfl h
      | succ k => simp [List.set, List.getD]
    | succ j =>
      cases m with
      | zero => simp [List.set, List.getD]
      | succ k =>
        simp only [List.set, List.getD_cons_succ]
        exact ih j k (fun hc => h (by rw [hc]))

theorem getD_out_of_range {α : Type} (l : List α) (n : Nat) (d : α)
    (h : l.length ≤ n) : l.getD n d = d := by
  induction l generalizing n with
  | nil => simp [List.getD]
  | cons x xs ih =>
    cases n with
    | zero => simp at h
    | succ m =>
      simp only [List.getD_cons_succ]
      exact ih m (by simpa using h)

/-! ## The `Bottles` resource pool

`Bottles(n)` initialises `bottles` to `n` copies of `-1` (free).
`acquireBottles` first scans `required_bottles`: it returns `false` as
soon as some bottle is owned (`≠ -1`) by a different philosopher
(`≠ philosopher_id`); otherwise it writes `philosopher_id` into every
required slot and returns `true`.  `releaseBottles` sets every slot
holding `philosopher_id` back to `-1`.
-/

def bottlesInit (number_of_bottles : Nat) : List Int :=
  List.replicate number_of_bottles (-1)

/-- The availability scan of `Bottles::acquireBottles` (the first loop):
fails as soon as a required bottle is owned by a different philosopher. -/
def bottlesAvailable (pool : List Int) (philosopher_id : Int) :
    List Nat → Bool
  | [] => true
  | bottle :: rest =>
    if pool.getD bottle (-1) ≠ -1 ∧ pool.getD bottle (-1) ≠ philosopher_id then
      false
    else
      bottlesAvailable pool philosopher_id rest

/-- The commit loop of `Bottles::acquireBottles` (the second loop):
marks every required bottle as owned by `philosopher_id`. -/
def markBottles (philosopher_id : Int) :
    List Int → List Nat → List Int
  | pool, [] => pool
  | pool, bottle :: rest =>
      markBottles philosopher_id (pool.set bottle philosopher_id) rest

/-- `Bottles::acquireBottles`: check-then-commit under the pool lock.
Returns the success flag together with the pool state after the call. -/
def acquireBottles (pool : List Int) (philosopher_id : Int)
    (required_bottles : List Nat) : Bool × List Int :=
  if bottlesAvailable pool philosopher_id required_bottles then
    (true, markBottles philosopher_id pool required_bottles)
  else
    (false, pool)

/-- `Bottles::releaseBottles`: frees every bottle owned by `philosopher_id`. -/
def releaseBottles (pool : List Int) (philosopher_id : Int) : List Int :=
  pool.map (fun owner => if owner = philosopher_id then -1 else owner)

/-! ## Basic facts about the pool operations -/

theorem bottlesAvailable_iff (pool : List Int) (pid : Int)
    (req : List Nat) :
    bottlesAvailable pool pid req = true ↔
      ∀ b ∈ req, pool.getD b (-1) = -1 ∨ pool.getD b (-1) = pid := by
  induction req with
  | nil => simp [bottlesAvailable]
  | cons b rest ih =>
    by_cases hb : pool.getD b (-1) ≠ -1 ∧ pool.getD b (-1) ≠ pid
    · simp only [bottlesAvailable, if_pos hb]
      constructor
      · intro h; exact absurd h (by simp)
      · intro h
        rcases h b (by simp) with h1 | h1
        · exact absurd h1 hb.1
        · exact absurd h1 hb.2
    · simp only [bottlesAvailable, if_neg hb]
      rw [ih]
      constructor
      · intro h c hc
        rcases List.mem_cons.mp hc with rfl | hc'
        · by_cases h1 : pool.getD c (-1) = -1
          · exact Or.inl h1
          · exact Or.inr (by
              by_contra h2
              exact hb ⟨h1, h2⟩)
        · exact h c hc'
      · intro h c hc
        exact h c (List.mem_cons_of_mem _ hc)

theorem markBottles_length (pid : Int) (pool : List Int) (req : List Nat) :
    (markBottles pid pool req).length = pool.length := by
  induction req generalizing pool with
  | nil => rfl
  | cons b rest ih =>
    simp only [markBottles]
    rw [ih]
    simp

theorem markBottles_getD_not_mem (pid : Int) (pool : List Int)
    (req : List Nat) (c : Nat) (d : Int) (hc : c ∉ req) :
    (markBottles pid pool req).getD c d = pool.getD c d := by
  induction req generalizing pool with
  | nil => rfl
  | cons b rest ih =>
    simp only [markBottles]
    rw [ih _ (fun h => hc (List.mem_cons_of_mem _ h))]
    exact getD_set_ne pool b c pid d
      (fun h => hc (by simp [h]))

theorem markBottles_getD_mem (pid : Int) (pool : List Int)
    (req : List Nat) (b : Nat) (hb : b ∈ req) (hlt : b < pool.length) :
    (markBottles pid pool req).getD b (-1) = pid := by
  induction req generalizing pool with
  | nil => simp at hb
  | cons a rest ih =>
    simp only [markBottles]
    by_cases hbr : b ∈ rest
    · exact ih (pool.set a pid) hbr (by simpa using hlt)
    · have hba : b = a := by
        rcases List.mem_cons.mp hb with h | h
        · exact h
        · exact absurd h hbr
      subst hba
      rw [markBottles_getD_not_mem pid _ rest b (-1) hbr]
      exact getD_set_self pool b pid (-1) hlt

theorem acquireBottles_fst (pool : List Int) (pid : Int) (req : List Nat) :
    (acquireBottles pool pid req).1 = bottlesAvailable pool pid req := by
  unfold acquireBottles
  by_cases h : bottlesAvailable pool pid req <;> simp [h]

theorem acquireBottles_snd_of_available (pool : List Int) (pid : Int)
    (req : List Nat) (h : bottlesAvailable pool pid req = true) :
    (acquireBottles pool pid req).2 = markBottles pid pool req := by
  simp [acquireBottles, h]

theorem acquireBottles_snd_of_not_available (pool : List Int) (pid : Int)
    (req : List Nat) (h : ¬ bottlesAvailable pool pid req = true) :
    (acquireBottles pool pid req).2 = pool := by
  simp [acquireBottles, h]

theorem set_getD_eq_self {α : Type} (l : List α) (n : Nat) (d : α)
    (h : n < l.length) : l.set n (l.getD n d) = l := by
  induction l generalizing n with
  | nil => simp at h
  | cons x xs ih =>
    cases n with
    | zero => simp [List.set, List.getD]
    | succ m =>
      simp only [List.getD_cons_succ, List.set]
      rw [ih m (by simpa using h)]

theorem getD_mem {α : Type} (l : List α) (n : Nat) (d : α)
    (h : n < l.length) : l.getD n d ∈ l := by
  induction l generalizing n with
  | nil => simp at h
  | cons x xs ih =>
    cases n with
    | zero => simp [List.getD]
    | succ m =>
      simp only [List.getD_cons_succ]
      exact List.mem_cons_of_mem _ (ih m (by simpa using h))

theorem releaseBottles_getD (pool : List Int) (pid : Int) (r : Nat) :
    (releaseBottles pool pid).getD r (-1) =
      if pool.getD r (-1) = pid then -1 else pool.getD r (-1) := by
  induction pool generalizing r with
  | nil => simp [releaseBottles, List.getD]
  | cons x xs ih =>
    cases r with
    | zero => simp [releaseBottles, List.getD]
    | succ m =>
      simp only [releaseBottles, List.map_cons, List.getD_cons_succ]
      exact ih m

/-! ## C5: empty request -/

/-- C5: `tryAcquire(agentId, {})` always returns true and mutates
nothing: `acquireBottles` with the empty required set succeeds and
returns the pool unchanged, for every pool state and every agent id. -/
theorem acquireBottles_empty (pool : List Int) (pid : Int) :
    acquireBottles pool pid [] = (true, pool) := by
  rfl

/-! ## C1: all-or-nothing acquisition -/

/-- C1: for every pool state, agent id and in-range request,
`acquireBottles` succeeds iff every requested bottle is free or already
owned by the requesting agent; on success every requested bottle is
owned by the agent afterwards; on failure the ownership vector is
returned byte-for-byte unchanged. -/
theorem acquireBottles_correct (pool : List Int) (pid : Int)
    (req : List Nat) (hrange : ∀ b ∈ req, b < pool.length) :
    ((acquireBottles pool pid req).1 = true ↔
        ∀ b ∈ req, pool.getD b (-1) = -1 ∨ pool.getD b (-1) = pid) ∧
    ((acquireBottles pool pid req).1 = true →
        ∀ b ∈ req, (acquireBottles pool pid req).2.getD b (-1) = pid) ∧
    ((acquireBottles pool pid req).1 = false →
        (acquireBottles pool pid req).2 = pool) := by
  refine ⟨?_, ?_, ?_⟩
  · rw [acquireBottles_fst]
    exact bottlesAvailable_iff pool pid req
  · intro hsucc b hb
    rw [acquireBottles_fst] at hsucc
    rw [acquireBottles_snd_of_available pool pid req hsucc]
    exact markBottles_getD_mem pid pool req b hb (hrange b hb)
  · intro hfail
    rw [acquireBottles_fst] at hfail
    exact acquireBottles_snd_of_not_available pool pid req (by simp [hfail])

/-- Witness for C1 at the concrete pool `[-1, -1, -1]`, agent `0`,
request `[0, 1]`. -/
theorem acquireBottles_correct_witness :
    ((acquireBottles [-1, -1, -1] 0 [0, 1]).1 = true ↔
        ∀ b ∈ [0, 1], ([-1, -1, -1] : List Int).getD b (-1) = -1 ∨
          ([-1, -1, -1] : List Int).getD b (-1) = 0) ∧
    ((acquireBottles [-1, -1, -1] 0 [0, 1]).1 = true →
        ∀ b ∈ [0, 1],
          (acquireBottles [-1, -1, -1] 0 [0, 1]).2.getD b (-1) = 0) ∧
    ((acquireBottles [-1, -1, -1] 0 [0, 1]).1 = false →
        (acquireBottles [-1, -1, -1] 0 [0, 1]).2 = [-1, -1, -1]) :=
  acquireBottles_correct [-1, -1, -1] 0 [0, 1] (by decide)

/-! ## C3: release completeness -/

/-- C3: for every pool state and agent id (distinct from the `-1` free
sentinel), `releaseBottles` leaves no bottle owned by that agent, is a
no-op when the agent owns nothing, and always returns a pool of the
same size (it is a total function: it never fails). -/
theorem releaseBottles_correct (pool : List Int) (pid : Int)
    (hpid : pid ≠ -1) :
    (∀ r : Nat, (releaseBottles pool pid).getD r (-1) ≠ pid) ∧
    ((∀ o ∈ pool, o ≠ pid) → releaseBottles pool pid = pool) ∧
    (releaseBottles pool pid).length = pool.length := by
  refine ⟨?_, ?_, ?_⟩
  · intro r
    rw [releaseBottles_getD]
    by_cases h : pool.getD r (-1) = pid
    · rw [if_pos h]
      exact fun hc => hpid hc.symm
    · rw [if_neg h]
      exact h
  · intro hnone
    unfold releaseBottles
    induction pool with
    | nil => rfl
    | cons x xs ih =>
      simp only [List.map_cons]
      rw [if_neg (hnone x (by simp)), ih (fun o ho => hnone o (by simp [ho]))]
  · simp [releaseBottles]

/-- Witness for C3 at the concrete pool `[0, -1, 2]` and agent `0`. -/
theorem releaseBottles_correct_witness :
    (∀ r : Nat, (releaseBottles [0, -1, 2] 0).getD r (-1) ≠ 0) ∧
    ((∀ o ∈ ([0, -1, 2] : List Int), o ≠ 0) →
        releaseBottles [0, -1, 2] 0 = [0, -1, 2]) ∧
    (releaseBottles [0, -1, 2] 0).length = ([0, -1, 2] : List Int).length :=
  releaseBottles_correct [0, -1, 2] 0 (by decide)

/-! ## C4: idempotent re-acquisition -/

theorem markBottles_self (pool : List Int) (pid : Int) (req : List Nat)
    (hpid : pid ≠ -1) (hown : ∀ b ∈ req, pool.getD b (-1) = pid) :
    markBottles pid pool req = pool := by
  induction req with
  | nil => rfl
  | cons a rest ih =>
    have ha : pool.getD a (-1) = pid := hown a (by simp)
    have halt : a < pool.length := by
      by_contra hge
      rw [getD_out_of_range pool a (-1) (Nat.le_of_not_lt hge)] at ha
      exact hpid ha.symm
    have hset : pool.set a pid = pool := by
      have := set_getD_eq_self pool a (-1) halt
      rw [ha] at this
      exact this
    simp only [markBottles, hset]
    exact ih (fun b hb => hown b (by simp [hb]))

/-- C4: if agent `pid` already owns every bottle of the request, the
acquisition succeeds and the pool is returned entirely unchanged; and
when the request mixes bottles owned by `pid` with free bottles, the
acquisition still succeeds and every bottle `pid` owned before is still
owned by `pid` afterwards. -/
theorem acquireBottles_reacquire (pool : List Int) (pid : Int)
    (req : List Nat) (hpid : pid ≠ -1) :
    ((∀ b ∈ req, pool.getD b (-1) = pid) →
        (acquireBottles pool pid req).1 = true ∧
        (acquireBottles pool pid req).2 = pool) ∧
    ((∀ b ∈ req, pool.getD b (-1) = pid ∨ pool.getD b (-1) = -1) →
        (acquireBottles pool pid req).1 = true ∧
        ∀ r : Nat, pool.getD r (-1) = pid →
          (acquireBottles pool pid req).2.getD r (-1) = pid) := by
  constructor
  · intro hown
    have havail : bottlesAvailable pool pid req = true :=
      (bottlesAvailable_iff pool pid req).mpr
        (fun b hb => Or.inr (hown b hb))
    refine ⟨by rw [acquireBottles_fst]; exact havail, ?_⟩
    rw [acquireBottles_snd_of_available pool pid req havail]
    exact markBottles_self pool pid req hpid hown
  · intro hmix
    have havail : bottlesAvailable pool pid req = true :=
      (bottlesAvailable_iff pool pid req).mpr
        (fun b hb => (hmix b hb).symm)
    refine ⟨by rw [acquireBottles_fst]; exact havail, ?_⟩
    intro r hr
    rw [acquireBottles_snd_of_available pool pid req havail]
    by_cases hmem : r ∈ req
    · have hrlt : r < pool.length := by
        by_contra hge
        rw [getD_out_of_range pool r (-1) (Nat.le_of_not_lt hge)] at hr
        exact hpid hr.symm
      exact markBottles_getD_mem pid pool req r hmem hrlt
    · rw [markBottles_getD_not_mem pid pool req r (-1) hmem]
      exact hr

/-- Witness for C4 at the concrete pool `[7, -1, 3]` and agent `7`
(request `[0]` fully owned; request `[0, 1]` mixes owned and free). -/
theorem acquireBottles_reacquire_witness :
    ((∀ b ∈ [0], ([7, -1, 3] : List Int).getD b (-1) = 7) →
        (acquireBottles [7, -1, 3] 7 [0]).1 = true ∧
        (acquireBottles [7, -1, 3] 7 [0]).2 = [7, -1, 3]) ∧
    ((∀ b ∈ [0], ([7, -1, 3] : List Int).getD b (-1) = 7 ∨
          ([7, -1, 3] : List Int).getD b (-1) = -1) →
        (acquireBottles [7, -1, 3] 7 [0]).1 = true ∧
        ∀ r : Nat, ([7, -1, 3] : List Int).getD r (-1) = 7 →
          (acquireBottles [7, -1, 3] 7 [0]).2.getD r (-1) = 7) :=
  acquireBottles_reacquire [7, -1, 3] 7 [0] (by decide)

/-! ## C10: frame conditions -/

/-- C10: a successful acquisition leaves every bottle outside the
request with exactly the owner it had before, and a release leaves
every bottle that is free or owned by a different agent unchanged. -/
theorem pool_frame (pool : List Int) (pid : Int) (req : List Nat) :
    ((acquireBottles pool pid req).1 = true →
        ∀ r : Nat, r ∉ req →
          (acquireBottles pool pid req).2.getD r (-1) =
            pool.getD r (-1)) ∧
    (∀ r : Nat, pool.getD r (-1) ≠ pid →
        (releaseBottles pool pid).getD r (-1) = pool.getD r (-1)) := by
  constructor
  · intro hsucc r hr
    rw [acquireBottles_fst] at hsucc
    rw [acquireBottles_snd_of_available pool pid req hsucc]
    exact markBottles_getD_not_mem pid pool req r (-1) hr
  · intro r hr
    rw [releaseBottles_getD, if_neg hr]

/-- Witness for C10 at the concrete pool `[5, -1, 2]`, agent `5`,
request `[1]`, untouched bottle `2`. -/
theorem pool_frame_witness :
    ((acquireBottles [5, -1, 2] 5 [1]).1 = true →
        ∀ r : Nat, r ∉ [1] →
          (acquireBottles [5, -1, 2] 5 [1]).2.getD r (-1) =
            ([5, -1, 2] : List Int).getD r (-1)) ∧
    (∀ r : Nat, ([5, -1, 2] : List Int).getD r (-1) ≠ 5 →
        (releaseBottles [5, -1, 2] 5).getD r (-1) =
          ([5, -1, 2] : List Int).getD r (-1)) :=
  pool_frame [5, -1, 2] 5 [1]

/-! ## C2: single-owner invariant over operation sequences -/

/-- A serialized pool operation: the two mutating entry points of the
`Bottles` class, each one executed under the pool mutex in the source. -/
inductive PoolOp where
  | acquire : Int → List Nat → PoolOp
  | release : Int → PoolOp

def applyOp (pool : List Int) : PoolOp → List Int
  | PoolOp.acquire pid req => (acquireBottles pool pid req).2
  | PoolOp.release pid => releaseBottles pool pid

def runOps (pool : List Int) (ops : List PoolOp) : List Int :=
  ops.foldl applyOp pool

/-- Agent `a` holds bottle `r` in `pool`: the bottle's single owner
field equals `a`, and `a` is an agent id (not the `-1` free marker). -/
def ownsBottle (pool : List Int) (r : Nat) (a : Int) : Prop :=
  a ≠ -1 ∧ pool.getD r (-1) = a

/-- C2: starting from the all-free initial pool, after any sequence of
`acquireBottles` / `releaseBottles` operations, each bottle has at most
one owner: two agents holding the same bottle are equal.  (In the
embedding, as in the C++ `std::vector<int>`, each bottle stores exactly
one owner field, so distinct simultaneous owners are structurally
impossible; this holds at every step since `ops` ranges over every
prefix of a history.) -/
theorem single_owner (n : Nat) (ops : List PoolOp) (r : Nat) (a b : Int)
    (ha : ownsBottle (runOps (bottlesInit n) ops) r a)
    (hb : ownsBottle (runOps (bottlesInit n) ops) r b) : a = b :=
  ha.2.symm.trans hb.2

/-- Witness for C2: after agent `0` acquires bottles `0` and `1` on a
three-bottle pool, the owner of bottle `0` is unique. -/
theorem single_owner_witness : (0 : Int) = 0 :=
  single_owner 3 [PoolOp.acquire 0 [0, 1]] 0 0 0
    ⟨by decide, by decide⟩ ⟨by decide, by decide⟩

/-! ## The `Graph` topology

`adjacency_list` is a vector indexed by philosopher id; each entry is a
`std::map` from neighbor id to bottle id, embedded as a key-sorted
association list.  `mapInsert` is `map::operator[]` assignment: it
overwrites an existing key's value and otherwise inserts in key order.
-/

def mapInsert : List (Nat × Int) → Nat → Int → List (Nat × Int)
  | [], k, v => [(k, v)]
  | (k', v') :: rest, k, v =>
    if k < k' then (k, v) :: (k', v') :: rest
    else if k = k' then (k, v) :: rest
    else (k', v') :: mapInsert rest k v

def mapLookup : List (Nat × Int) → Nat → Option Int
  | [], _ => none
  | (k', v') :: rest, k => if k = k' then some v' else mapLookup rest k

structure Graph where
  adjacency_list : List (List (Nat × Int))

/-- The `Graph(number_fo_vertices)` constructor: every philosopher
starts with an empty neighbor map. -/
def graphInit (number_fo_vertices : Nat) : Graph :=
  ⟨List.replicate number_fo_vertices []⟩

/-- `Graph::addEdge`: stores `bottle_id` under key `vertex_2` in
`vectex_1`'s map, then under key `vectex_1` in `vertex_2`'s map. -/
def addEdge (g : Graph) (vectex_1 vertex_2 : Nat) (bottle_id : Int) :
    Graph :=
  let al1 := g.adjacency_list.set vectex_1
      (mapInsert (g.adjacency_list.getD vectex_1 []) vertex_2 bottle_id)
  ⟨al1.set vertex_2
      (mapInsert (al1.getD vertex_2 []) vectex_1 bottle_id)⟩

/-- `Graph::getAdjacentBottles`: the bottle ids stored in the
philosopher's neighbor map, in map iteration order. -/
def getAdjacentBottles (g : Graph) (philosopher_id : Nat) : List Int :=
  (g.adjacency_list.getD philosopher_id []).map Prod.snd

theorem mem_mapInsert_self (m : List (Nat × Int)) (k : Nat) (v : Int) :
    (k, v) ∈ mapInsert m k v := by
  induction m with
  | nil => simp [mapInsert]
  | cons p rest ih =>
    obtain ⟨k', v'⟩ := p
    simp only [mapInsert]
    by_cases h1 : k < k'
    · simp [h1]
    · by_cases h2 : k = k'
      · simp [h1, h2]
      · simp only [if_neg h1, if_neg h2, List.mem_cons]
        exact Or.inr ih

theorem mapLookup_mapInsert_self (m : List (Nat × Int)) (k : Nat)
    (v : Int) : mapLookup (mapInsert m k v) k = some v := by
  induction m with
  | nil => simp [mapInsert, mapLookup]
  | cons p rest ih =>
    obtain ⟨k', v'⟩ := p
    simp only [mapInsert]
    by_cases h1 : k < k'
    · simp [h1, mapLookup]
    · by_cases h2 : k = k'
      · simp [h1, h2, mapLookup]
      · simp only [if_neg h1, if_neg h2, mapLookup]
        exact ih

theorem addEdge_length (g : Graph) (a b : Nat) (r : Int) :
    (addEdge g a b r).adjacency_list.length =
      g.adjacency_list.length := by
  simp [addEdge]

/-! ## C6: topology symmetry -/

theorem addEdge_mem_adjacent (g : Graph) (a b : Nat) (r : Int)
    (ha : a < g.adjacency_list.length)
    (hb : b < g.adjacency_list.length) :
    r ∈ getAdjacentBottles (addEdge g a b r) a ∧
    r ∈ getAdjacentBottles (addEdge g a b r) b := by
  have hlen1 : (g.adjacency_list.set a
      (mapInsert (g.adjacency_list.getD a []) b r)).length =
        g.adjacency_list.length := by simp
  constructor
  · by_cases hab : a = b
    · subst hab
      show r ∈ ((addEdge g a a r).adjacency_list.getD a []).map Prod.snd
      unfold addEdge
      simp only
      rw [getD_set_self _ a _ [] (by rw [hlen1]; exact ha)]
      exact List.mem_map_of_mem Prod.snd (mem_mapInsert_self _ a r)
    · show r ∈ ((addEdge g a b r).adjacency_list.getD a []).map Prod.snd
      unfold addEdge
      simp only
      rw [getD_set_ne _ b a _ [] (fun h => hab h.symm)]
      rw [getD_set_self _ a _ [] ha]
      exact List.mem_map_of_mem Prod.snd (mem_mapInsert_self _ b r)
  · show r ∈ ((addEdge g a b r).adjacency_list.getD b []).map Prod.snd
    unfold addEdge
    simp only
    rw [getD_set_self _ b _ [] (by rw [hlen1]; exact hb)]
    exact List.mem_map_of_mem Prod.snd (mem_mapInsert_self _ a r)

theorem addEdge_lookup (g : Graph) (a b : Nat) (r : Int)
    (ha : a < g.adjacency_list.length)
    (hb : b < g.adjacency_list.length) :
    mapLookup ((addEdge g a b r).adjacency_list.getD a []) b = some r ∧
    mapLookup ((addEdge g a b r).adjacency_list.getD b []) a = some r := by
  have hlen1 : (g.adjacency_list.set a
      (mapInsert (g.adjacency_list.getD a []) b r)).length =
        g.adjacency_list.length := by simp
  constructor
  · by_cases hab : a = b
    · subst hab
      unfold addEdge
      simp only
      rw [getD_set_self _ a _ [] (by rw [hlen1]; exact ha)]
      exact mapLookup_mapInsert_self _ a r
    · unfold addEdge
      simp only
      rw [getD_set_ne _ b a _ [] (fun h => hab h.symm)]
      rw [getD_set_self _ a _ [] ha]
      exact mapLookup_mapInsert_self _ b r
  · unfold addEdge
    simp only
    rw [getD_set_self _ b _ [] (by rw [hlen1]; exact hb)]
    exact mapLookup_mapInsert_self _ a r

/-- C6: after `addEdge(a, b, r)` on in-range philosopher ids, bottle
`r` appears among the bottles adjacent to `a` and among the bottles
adjacent to `b`. -/
theorem addEdge_symmetric (g : Graph) (a b : Nat) (r : Int)
    (ha : a < g.adjacency_list.length)
    (hb : b < g.adjacency_list.length) :
    r ∈ getAdjacentBottles (addEdge g a b r) a ∧
    r ∈ getAdjacentBottles (addEdge g a b r) b :=
  addEdge_mem_adjacent g a b r ha hb

/-- Witness for C6 on a two-philosopher graph with one edge. -/
theorem addEdge_symmetric_witness :
    (5 : Int) ∈ getAdjacentBottles (addEdge (graphInit 2) 0 1 5) 0 ∧
    (5 : Int) ∈ getAdjacentBottles (addEdge (graphInit 2) 0 1 5) 1 :=
  addEdge_symmetric (graphInit 2) 0 1 5 (by decide) (by decide)

/-! ## C8: a second bottle on the same pair overwrites the first -/

/-- C8 counterexample: on a two-philosopher graph, after
`addEdge(0, 1, 0)` followed by `addEdge(0, 1, 1)`, it is NOT the case
that both bottle `0` and bottle `1` are adjacent to philosopher `0`:
the second `map::operator[]` assignment overwrote the first, so only
bottle `1` remains. -/
theorem addEdge_two_bottles_cex :
    ¬ ((0 : Int) ∈
          getAdjacentBottles (addEdge (addEdge (graphInit 2) 0 1 0) 0 1 1) 0 ∧
       (1 : Int) ∈
          getAdjacentBottles (addEdge (addEdge (graphInit 2) 0 1 0) 0 1 1) 0) := by
  decide

/-- C8 amended: after `addEdge(a, b, r1)` followed by
`addEdge(a, b, r2)` on in-range ids, `r2` appears in the bottles
adjacent to `a` and to `b`, and the bottle stored for the pair is `r2`
alone — each neighbor map keeps at most one bottle per neighbor, so the
second call overwrites `r1` rather than accumulating it. -/
theorem addEdge_overwrites (g : Graph) (a b : Nat) (r1 r2 : Int)
    (ha : a < g.adjacency_list.length)
    (hb : b < g.adjacency_list.length) :
    r2 ∈ getAdjacentBottles (addEdge (addEdge g a b r1) a b r2) a ∧
    r2 ∈ getAdjacentBottles (addEdge (addEdge g a b r1) a b r2) b ∧
    mapLookup
      ((addEdge (addEdge g a b r1) a b r2).adjacency_list.getD a []) b =
        some r2 ∧
    mapLookup
      ((addEdge (addEdge g a b r1) a b r2).adjacency_list.getD b []) a =
        some r2 := by
  have ha1 : a < (addEdge g a b r1).adjacency_list.length := by
    rw [addEdge_length]; exact ha
  have hb1 : b < (addEdge g a b r1).adjacency_list.length := by
    rw [addEdge_length]; exact hb
  obtain ⟨hma, hmb⟩ := addEdge_mem_adjacent (addEdge g a b r1) a b r2 ha1 hb1
  obtain ⟨hla, hlb⟩ := addEdge_lookup (addEdge g a b r1) a b r2 ha1 hb1
  exact ⟨hma, hmb, hla, hlb⟩

/-- Witness for the amended C8 on a two-philosopher graph. -/
theorem addEdge_overwrites_witness :
    (1 : Int) ∈
        getAdjacentBottles (addEdge (addEdge (graphInit 2) 0 1 0) 0 1 1) 0 ∧
    (1 : Int) ∈
        getAdjacentBottles (addEdge (addEdge (graphInit 2) 0 1 0) 0 1 1) 1 ∧
    mapLookup
      ((addEdge (addEdge (graphInit 2) 0 1 0) 0 1 1).adjacency_list.getD 0 []) 1 =
        some 1 ∧
    mapLookup
      ((addEdge (addEdge (graphInit 2) 0 1 0) 0 1 1).adjacency_list.getD 1 []) 0 =
        some 1 :=
  addEdge_overwrites (graphInit 2) 0 1 0 1 (by decide) (by decide)

/-! ## The `Philosopher` state machine: `becomeThirsty`

`becomeThirsty` draws `limit = rand() % 2 + 1 ∈ {1, 2}`, clears
`required_bottles`, builds `indices = [0, …, k-1]` over the adjacent
bottles, shuffles it, and pushes `adjacent_bottles[indices[i]]` for
`i < limit` and `i < k`.  The embedding takes the drawn `limit` and the
shuffled index list `perm` as parameters; the shuffle postcondition
(`perm` is a permutation of `range k`) is a hypothesis of the theorems.
-/

inductive State where
  | TRANQUIL
  | THIRSTY
  | DRINKING

structure Philosopher where
  id : Nat
  state : State
  required_bottles : List Int

/-- `Philosopher::becomeThirsty` with the random draws made explicit:
`limit` is the drawn subset size and `perm` the shuffled index list. -/
def becomeThirsty (p : Philosopher) (g : Graph) (limit : Nat)
    (perm : List Nat) : Philosopher :=
  let adjacent_bottles := getAdjacentBottles g p.id
  { p with
    state := State.THIRSTY
    required_bottles :=
      (perm.take (min limit adjacent_bottles.length)).map
        (fun i => adjacent_bottles.getD i 0) }

/-! ## C9: random subset selection -/

/-- C9: when the philosopher becomes thirsty with a drawn size limit in
`{1, 2}` and a shuffled index list that is a permutation of the
adjacency indices, the new required set has exactly
`min limit k` elements (for `k` adjacent bottles), every element is one
of the adjacent bottles, the previous required set is discarded
entirely (the result does not depend on it), and the philosopher moves
to the THIRSTY state. -/
theorem becomeThirsty_spec (p : Philosopher) (g : Graph) (limit : Nat)
    (perm : List Nat) (hlimit : limit = 1 ∨ limit = 2)
    (hperm : perm.Perm (List.range (getAdjacentBottles g p.id).length)) :
    (becomeThirsty p g limit perm).required_bottles.length =
        min limit (getAdjacentBottles g p.id).length ∧
    (∀ x ∈ (becomeThirsty p g limit perm).required_bottles,
        x ∈ getAdjacentBottles g p.id) ∧
    (∀ q : Philosopher, q.id = p.id →
        (becomeThirsty q g limit perm).required_bottles =
          (becomeThirsty p g limit perm).required_bottles) ∧
    (becomeThirsty p g limit perm).state = State.THIRSTY := by
  have hplen : perm.length = (getAdjacentBottles g p.id).length := by
    simpa using hperm.length_eq
  refine ⟨?_, ?_, ?_, rfl⟩
  · simp only [becomeThirsty, List.length_map, List.length_take, hplen]
    omega
  · intro x hx
    simp only [becomeThirsty, List.mem_map] at hx
    obtain ⟨i, hi, rfl⟩ := hx
    have hip : i ∈ perm := List.mem_of_mem_take hi
    have hir : i ∈ List.range (getAdjacentBottles g p.id).length :=
      hperm.mem_iff.mp hip
    exact getD_mem _ i 0 (List.mem_range.mp hir)
  · intro q hq
    simp [becomeThirsty, hq]

/-- Witness for C9: a two-philosopher graph with one shared bottle,
limit `1`, shuffled index list `[0]`, previous required set `[9]`. -/
theorem becomeThirsty_spec_witness :
    (becomeThirsty ⟨0, State.TRANQUIL, [9]⟩ (addEdge (graphInit 2) 0 1 5)
        1 [0]).required_bottles.length =
      min 1 (getAdjacentBottles (addEdge (graphInit 2) 0 1 5) 0).length ∧
    (∀ x ∈ (becomeThirsty ⟨0, State.TRANQUIL, [9]⟩
        (addEdge (graphInit 2) 0 1 5) 1 [0]).required_bottles,
        x ∈ getAdjacentBottles (addEdge (graphInit 2) 0 1 5) 0) ∧
    (∀ q : Philosopher, q.id = 0 →
        (becomeThirsty q (addEdge (graphInit 2) 0 1 5) 1 [0]).required_bottles =
          (becomeThirsty ⟨0, State.TRANQUIL, [9]⟩
            (addEdge (graphInit 2) 0 1 5) 1 [0]).required_bottles) ∧
    (becomeThirsty ⟨0, State.TRANQUIL, [9]⟩ (addEdge (graphInit 2) 0 1 5)
        1 [0]).state = State.THIRSTY :=
  becomeThirsty_spec ⟨0, State.TRANQUIL, [9]⟩ (addEdge (graphInit 2) 0 1 5)
    1 [0] (Or.inl rfl) (by decide)

end DrinkingPhilosopher
